import Mathlib

/-!
Shallow embedding of the vocabulary-trainer session engine.

Each definition below translates one function or state fragment of the
TypeScript source (`types.ts`, `App.tsx` / `handleStartGame` /
`handleReplay`, `ChoiceGame.tsx`, `MatchingGame.tsx`, `timer-logic.ts`,
`history-manager.ts`).  JavaScript numbers that only ever hold exact
decimal fractions (timer seconds, 0.1-second ticks, 0.5-second steps)
are modelled as rationals; JavaScript `Set` objects are modelled as
`Finset String` (when only membership and cardinality matter) or as
insertion-ordered duplicate-free lists (when iteration order matters);
random shuffles are modelled as oracle functions constrained to be
permutations.
-/

/-- A bilingual dictionary entry (`Word` in `types.ts`):
`val[0]` is the source text, `val[1]` the target text. -/
structure Word where
  id : String
  val : List String
deriving DecidableEq, Repr

/-- One record per resolved question (`QuestionLog` in `types.ts`). -/
structure QuestionLog where
  wordId : String
  options : List String
  correctId : String
  selectedId : Option String
  isCorrect : Bool
  timeTaken : Nat
deriving DecidableEq, Repr

/-- Timer modes of `timer-logic.ts`. -/
inductive TimerMode where
  | none
  | global
  | perQuestion
  | acceleration
deriving DecidableEq, Repr

/-- Game modes (`'one-of-n' | 'matching'` in `types.ts`). -/
inductive GameMode where
  | oneOfN
  | matching
deriving DecidableEq, Repr

/-- Translation direction (`'ru-en' | 'en-ru'` in `types.ts`). -/
inductive Direction where
  | ruEn
  | enRu
deriving DecidableEq, Repr

/-- `GameConfig` of `types.ts`. -/
structure GameConfig where
  themeIds : List String
  wordCount : Nat
  mode : GameMode
  timerMode : TimerMode
  timeLimit : ℚ
  direction : Direction
  batchSize : Nat
  optionsCount : Nat
  totalQuestions : Option Nat
  isReplay : Option Bool
  replaySessionId : Option String
  accelerationStart : Option ℚ
  accelerationEnd : Option ℚ
deriving DecidableEq, Repr

/-- `SessionLog` of `types.ts` (timestamps as naturals). -/
structure SessionLog where
  id : String
  timestamp : Nat
  config : GameConfig
  questions : List QuestionLog
  score : Nat
  mistakes : Nat
  totalWords : Nat
  timeTaken : Nat
deriving DecidableEq, Repr

/-! ### Word Pool Resolver (`App.tsx`, `handleStartGame`) -/

/-- The content key used for deduplication in `handleStartGame`:
`` `${w.val[0].trim().toLowerCase()}|||${w.val[1].trim().toLowerCase()}` ``. -/
def contentKey (w : Word) : String :=
  (w.val.getD 0 "").trim.toLower ++ "|||" ++ (w.val.getD 1 "").trim.toLower

/-- The `allThemeWordsRaw.filter` loop of `handleStartGame` with its mutable
`seenContent` set made explicit: keep a word only if its content key has not
been seen yet. -/
def dedupByContent : List Word → List String → List Word
  | [], _ => []
  | w :: rest, seen =>
    if contentKey w ∈ seen then dedupByContent rest seen
    else w :: dedupByContent rest (contentKey w :: seen)

/-- Content deduplication of the loaded theme words (first occurrence wins). -/
def dedupWords (ws : List Word) : List Word :=
  dedupByContent ws []

/-- The `while (sequence.length < questionCount)` fill loop of
`handleStartGame`, with the per-iteration shuffle supplied by the oracle
`chunks` and the iteration count bounded by explicit fuel (each iteration
appends at least one word when the subset is non-empty, so `target` much
fuel always suffices). -/
def fillLoop (chunks : Nat → List Word) (target : Nat) : Nat → List Word → List Word
  | 0, acc => acc
  | fuel + 1, acc =>
    if acc.length < target then fillLoop chunks target fuel (acc ++ chunks fuel)
    else acc

/-- Step 3 of `handleStartGame`: repeatedly shuffle-and-append the subset
until the sequence is long enough, then truncate to exactly `target`. -/
def buildSequence (chunks : Nat → List Word) (subset : List Word) (target : Nat) : List Word :=
  if subset.isEmpty then [] else (fillLoop chunks target target []).take target

/-! ### Timer Engine (`timer-logic.ts`) -/

/-- The `accelerate` callback of `useTimer`: in acceleration mode decrease the
current limit by `accelterationStep`, floored at `minTime`; in every other
mode do nothing. -/
def accelerate (mode : TimerMode) (accelerationStep minTime cur : ℚ) : ℚ :=
  if mode = TimerMode.acceleration then max (cur - accelerationStep) minTime else cur

/-- `k` successive calls to `accelerate` starting from `cur`. -/
def accelerateN (mode : TimerMode) (accelerationStep minTime : ℚ) : Nat → ℚ → ℚ
  | 0, cur => cur
  | k + 1, cur => accelerateN mode accelerationStep minTime k (accelerate mode accelerationStep minTime cur)

/-- The state of `useTimer` relevant to ticking: the remaining time, the
running flag, and a count of how many times `onTimeUp` has been invoked. -/
structure TimerState where
  timeLeft : ℚ
  isRunning : Bool
  timeUpCount : Nat
deriving DecidableEq, Repr

/-- One firing of the `setInterval` tick of `useTimer`: no-op unless running
in a timed mode; when the remaining time is at or below one tick, stop and
invoke the time-up callback, clamping the clock to zero; otherwise decrement
by the 0.1-second tick. -/
def tick (mode : TimerMode) (st : TimerState) : TimerState :=
  if st.isRunning = false ∨ mode = TimerMode.none then st
  else if st.timeLeft ≤ 1/10 then
    { timeLeft := 0, isRunning := false, timeUpCount := st.timeUpCount + 1 }
  else
    { st with timeLeft := st.timeLeft - 1/10 }

/-- `n` successive interval firings. -/
def tickN (mode : TimerMode) : Nat → TimerState → TimerState
  | 0, st => st
  | n + 1, st => tickN mode n (tick mode st)

/-! ### Choice Round Engine (`ChoiceGame.tsx`) -/

/-- The per-batch interaction state of `ChoiceGame`: the current batch of
question words, the selected question, the resolved questions, the matched
options, the wrongly clicked options, the tainted questions, the score and
mistake counters, and whether a batch advance has been scheduled. -/
structure ChoiceState where
  currentBatch : List Word
  selectedQuestionId : Option String
  resolvedIds : Finset String
  correctMatchIds : Finset String
  wrongIds : Finset String
  taintedQuestionIds : Finset String
  score : Nat
  mistakes : Nat
  advancePending : Bool
deriving DecidableEq

/-- The state `ChoiceGame`'s batch-initialization effect produces for a fresh
batch: empty resolved/matched/wrong/tainted sets, and the single question
auto-selected when the batch has exactly one entry. -/
def initBatchState (batchOfWords : List Word) (score mistakes : Nat) : ChoiceState where
  currentBatch := batchOfWords
  selectedQuestionId :=
    match batchOfWords with
    | [w] => Option.some w.id
    | _ => Option.none
  resolvedIds := ∅
  correctMatchIds := ∅
  wrongIds := ∅
  taintedQuestionIds := ∅
  score := score
  mistakes := mistakes
  advancePending := false

/-- `handleOptionClick` of `ChoiceGame.tsx`: ignore the click unless a
question is selected and the option is not already matched; on a correct
click resolve the question, score it only when untainted, and either schedule
the batch advance or auto-select the last remaining question; on a wrong
click flash the option, count a mistake and taint the selected question. -/
def handleOptionClick (st : ChoiceState) (optionId : String) : ChoiceState :=
  match st.selectedQuestionId with
  | Option.none => st
  | Option.some sel =>
    if optionId ∈ st.correctMatchIds then st
    else
      match st.currentBatch.find? (fun q => q.id == sel) with
      | Option.none => st
      | Option.some question =>
        if question.id == optionId then
          let newResolved := insert sel st.resolvedIds
          let newScore := if sel ∈ st.taintedQuestionIds then st.score else st.score + 1
          let newMatched := insert optionId st.correctMatchIds
          if newResolved.card = st.currentBatch.length then
            { st with resolvedIds := newResolved, correctMatchIds := newMatched,
                      score := newScore, advancePending := true,
                      selectedQuestionId := Option.none }
          else
            let remaining := st.currentBatch.filter (fun q => decide (q.id ∉ newResolved))
            { st with resolvedIds := newResolved, correctMatchIds := newMatched,
                      score := newScore,
                      selectedQuestionId :=
                        match remaining with
                        | [r] => Option.some r.id
                        | _ => Option.none }
        else
          { st with wrongIds := insert optionId st.wrongIds,
                    mistakes := st.mistakes + 1,
                    taintedQuestionIds := insert sel st.taintedQuestionIds }

/-- A sequence of option clicks processed by `handleOptionClick`. -/
def runClicks (st : ChoiceState) : List String → ChoiceState
  | [] => st
  | c :: rest => runClicks (handleOptionClick st c) rest

/-- Whether a click lands in the wrong-answer branch of `handleOptionClick`
(a question is selected, the option is not already matched, the selected
question is in the batch, and the option is not its answer). -/
def isWrongClick (st : ChoiceState) (optionId : String) : Bool :=
  match st.selectedQuestionId with
  | Option.none => false
  | Option.some sel =>
    if optionId ∈ st.correctMatchIds then false
    else
      match st.currentBatch.find? (fun q => q.id == sel) with
      | Option.none => false
      | Option.some question => !(question.id == optionId)

/-- The set of question ids that receive at least one wrong answer over a
sequence of clicks (the specification-level notion of "answered incorrectly
in this batch"). -/
def wrongAnswered (st : ChoiceState) : List String → Finset String
  | [] => ∅
  | c :: rest =>
    (if isWrongClick st c then
      match st.selectedQuestionId with
      | Option.some sel => {sel}
      | Option.none => ∅
    else ∅) ∪ wrongAnswered (handleOptionClick st c) rest

/-- Option generation in `ChoiceGame`'s batch-initialization effect: the
batch's correct answers plus distractors drawn from the dictionary after
filtering out every word whose id appears in the batch, truncated to
`optionsCount` total; the two shuffles are oracle parameters. -/
def generateOptions (shufflePool shuffleFinal : List Word → List Word)
    (fullDictionary batchOfWords : List Word) (optionsCount : Nat) : List Word :=
  let needed : Int := (optionsCount : Int) - batchOfWords.length
  let pool := fullDictionary.filter (fun w => !(batchOfWords.any (fun b => b.id == w.id)))
  let distractors := (shufflePool pool).take (Int.toNat (max 0 needed))
  shuffleFinal (batchOfWords ++ distractors)

/-- The `'en-ru'` direction swap applied to each sequence word in
`handleStartGame`: the id gets a `"_dir"` suffix and the value pair is
reversed. -/
def swapSeqWord (w : Word) : Word :=
  { id := w.id ++ "_dir", val := [w.val.getD 1 "", w.val.getD 0 ""] }

/-- The `'en-ru'` direction swap applied to each dictionary word in
`handleStartGame`: the value pair is reversed, the id is kept. -/
def swapDictWord (w : Word) : Word :=
  { id := w.id, val := [w.val.getD 1 "", w.val.getD 0 ""] }

/-! ### Session Log Recorder (`history-manager.ts`, `App.tsx`,
`MatchingGame.tsx`) -/

/-- `HistoryManager.saveSession` in the normal case: push the record onto the
stored history. -/
def HistoryManager.saveSession (history : List SessionLog) (s : SessionLog) : List SessionLog :=
  history ++ [s]

/-- The fragment of `MatchingGame` state driving finalization: the
`isFinished` flag, the `hasSaved` latch, the mutable session log ref, the
aggregate counters, and the persisted history. -/
structure MatchFinishState where
  isFinished : Bool
  hasSaved : Bool
  sessionLog : SessionLog
  score : Nat
  incorrectCount : Nat
  elapsedTime : Nat
  history : List SessionLog
deriving DecidableEq

/-- `finishGame` of `MatchingGame.tsx`: bail out if already finished or
already saved; otherwise latch `hasSaved`, freeze the counters into the
session log, and persist it through `HistoryManager.saveSession`. -/
def finishGame (finalScore : Option Nat) (st : MatchFinishState) : MatchFinishState :=
  if st.isFinished = true ∨ st.hasSaved = true then st
  else
    let actualScore := finalScore.getD st.score
    let savedLog :=
      { st.sessionLog with
          score := actualScore
          mistakes := st.incorrectCount
          timeTaken := st.elapsedTime }
    { st with
        isFinished := true
        hasSaved := true
        sessionLog := savedLog
        history := HistoryManager.saveSession st.history savedLog }

/-- `n` successive persist attempts through `finishGame`. -/
def finishGameN (finalScore : Option Nat) : Nat → MatchFinishState → MatchFinishState
  | 0, st => st
  | n + 1, st => finishGameN finalScore n (finishGame finalScore st)

/-- Replay reconstruction in `handleReplay` of `App.tsx`: map each logged
question to the first theme word with its id, or to the fallback placeholder
`{ id: q.wordId, val: ['?', 'Error: Word Removed'] }` when the id no longer
resolves. -/
def placeholderWord (wordId : String) : Word :=
  { id := wordId, val := ["?", "Error: Word Removed"] }

/-- The `session.questions.map` of `handleReplay`. -/
def reconstructSequence (allThemeWords : List Word) (questions : List QuestionLog) : List Word :=
  questions.map fun q =>
    match allThemeWords.find? (fun w => w.id == q.wordId) with
    | Option.some w => w
    | Option.none => placeholderWord q.wordId

/-- What `JSON.parse` can yield for the history storage slot, as far as
`HistoryManager` inspects it: a JavaScript array of records, or some
non-array value. -/
inductive JsValue where
  | arr (sessions : List SessionLog)
  | nonArr
deriving DecidableEq

/-- The history storage slot classified the way
`HistoryManager.getAllSessions` branches on it: key absent, present but not
valid JSON (`JSON.parse` throws), or present and parsing to a value. -/
inductive StoredState where
  | absent
  | invalid
  | json (v : JsValue)
deriving DecidableEq

/-- `HistoryManager.getAllSessions`: `[]` when the key is absent, `[]` when
`JSON.parse` throws (the `catch` branch), and otherwise whatever value the
stored JSON parses to, returned without any shape check. -/
def HistoryManager.getAllSessions : StoredState → JsValue
  | StoredState.absent => JsValue.arr []
  | StoredState.invalid => JsValue.arr []
  | StoredState.json v => v

/-- Whether a parsed value is a JavaScript array. -/
def JsValue.isArr : JsValue → Bool
  | JsValue.arr _ => true
  | JsValue.nonArr => false

/-- `history.push(session)` as performed by `saveSession` on the value
`getAllSessions` returned: succeeds on an array, throws a `TypeError`
(modelled as `none`) on any non-array value. -/
def pushSession : JsValue → SessionLog → Option JsValue
  | JsValue.arr xs, s => Option.some (JsValue.arr (xs ++ [s]))
  | JsValue.nonArr, _ => Option.none

/-! ### Matching Round Engine (`MatchingGame.tsx`) -/

/-- The decimal digit character for `n < 10` (JavaScript number-to-string
interpolation, one digit). -/
def digitChar (n : Nat) : Char := Char.ofNat (48 + n)

/-- Decimal rendering of a natural number as a character list (JavaScript
`` `${n}` `` template interpolation). -/
def natDigits (n : Nat) : List Char :=
  if n < 10 then [digitChar n]
  else natDigits (n / 10) ++ [digitChar (n % 10)]
decreasing_by exact Nat.div_lt_self (by omega) (by omega)

/-- Decimal decoding, used only to prove `natDigits` injective. -/
def digitsVal (l : List Char) : Nat :=
  l.foldl (fun a c => a * 10 + (c.toNat - 48)) 0

/-- The synthetic id of a left matching item:
`` `L_${w.id}_${i}_${roundIndex}` `` in the round-initialization effect. -/
def mkLeftId (wordId : List Char) (i roundIndex : Nat) : List Char :=
  'L' :: '_' :: (wordId ++ '_' :: (natDigits i ++ '_' :: natDigits roundIndex))

/-- JavaScript `String.prototype.endsWith` on character lists. -/
def endsWith (s suffix : List Char) : Bool := decide (suffix <:+ s)

/-- The stale-match guard of the round-completion watcher:
`` sampleId.endsWith(`_${roundIndex}`) ``. -/
def roundSuffixOk (sample : List Char) (roundIndex : Nat) : Bool :=
  endsWith sample ('_' :: natDigits roundIndex)

/-- The fragment of `MatchingGame` state the round-completion watcher effect
reads: the matched synthetic ids (a JavaScript `Set`, insertion-ordered and
duplicate-free, so a list here), the current batch length, the round index,
the `isTransitioningRef` lock, the finished flag, and whether a current batch
exists at all. -/
structure MatchRoundState where
  matchesInRound : List (List Char)
  batchLen : Nat
  roundIndex : Nat
  transitioning : Bool
  finished : Bool
  hasBatch : Bool
deriving DecidableEq

/-- Adding a matched left id to the round's `Set` (`new Set(prev).add(leftId)`
keeps insertion order and ignores duplicates). -/
def addMatch (matchesInRound : List (List Char)) (leftId : List Char) : List (List Char) :=
  if leftId ∈ matchesInRound then matchesInRound else matchesInRound ++ [leftId]

/-- The decision made by the round-completion watcher effect of
`MatchingGame.tsx`: it advances (or finalizes) exactly when a batch exists,
the game is not finished, the matched-set size equals the batch size, the
sampled first matched id carries the current round's suffix (the check is
skipped when the set is empty), and the transition lock is not held. -/
def watcherFires (st : MatchRoundState) : Bool :=
  st.hasBatch && !st.finished && decide (st.matchesInRound.length = st.batchLen) &&
    (match st.matchesInRound.head? with
     | Option.none => true
     | Option.some s => roundSuffixOk s st.roundIndex) &&
    !st.transitioning

/-- Running the watcher effect once: when it fires it takes the transition
lock (`isTransitioningRef.current = true`) before scheduling the advance. -/
def watcherStep (st : MatchRoundState) : MatchRoundState :=
  if watcherFires st then { st with transitioning := true } else st

/-- The parts of the round-initialization effect relevant to completion
detection: reset the transition lock and the matched set for the new round. -/
def roundInit (st : MatchRoundState) (newRoundIndex newBatchLen : Nat) : MatchRoundState :=
  { st with
      matchesInRound := []
      transitioning := false
      roundIndex := newRoundIndex
      batchLen := newBatchLen }

/-! ### Concrete fixtures used as test inputs for witnesses -/

/-- A concrete configuration used as a test input. -/
def sampleConfig : GameConfig where
  themeIds := ["t1"]
  wordCount := 0
  mode := GameMode.matching
  timerMode := TimerMode.none
  timeLimit := 30
  direction := Direction.ruEn
  batchSize := 3
  optionsCount := 6
  totalQuestions := Option.some 10
  isReplay := Option.none
  replaySessionId := Option.none
  accelerationStart := Option.none
  accelerationEnd := Option.none

/-- A concrete one-question choice batch state used as a test input. -/
def sampleChoiceState : ChoiceState :=
  initBatchState [Word.mk "w1" ["a", "b"]] 0 0

/-- A concrete completed one-pair matching round used as a test input. -/
def sampleMatchState : MatchRoundState where
  matchesInRound := [mkLeftId ['w', '1'] 0 2]
  batchLen := 1
  roundIndex := 2
  transitioning := false
  finished := false
  hasBatch := true

/-- A concrete session record used as a test input. -/
def sampleSessionLog : SessionLog where
  id := "s1"
  timestamp := 1700000000
  config := sampleConfig
  questions := []
  score := 0
  mistakes := 0
  totalWords := 10
  timeTaken := 0

/-! ## Theorems -/

/-! ### Timer Engine -/

theorem accelerateN_other (mode : TimerMode) (step minTime : ℚ) (hmode : mode ≠ TimerMode.acceleration) :
    ∀ (k : Nat) (cur : ℚ), accelerateN mode step minTime k cur = cur := by
  intro k
  induction k with
  | zero => intro cur; rfl
  | succ k ih =>
    intro cur
    rw [accelerateN, accelerate, if_neg hmode, ih]

theorem accelerateN_accel (step minTime : ℚ) (hstep : 0 ≤ step) :
    ∀ (k : Nat) (cur : ℚ), minTime ≤ cur →
      accelerateN TimerMode.acceleration step minTime k cur = max (cur - (k : ℚ) * step) minTime := by
  intro k
  induction k with
  | zero =>
    intro cur hcur
    rw [accelerateN]
    rw [Nat.cast_zero, zero_mul, sub_zero, max_eq_left hcur]
  | succ k ih =>
    intro cur hcur
    rw [accelerateN, accelerate, if_pos rfl, ih (max (cur - step) minTime) (le_max_right _ _)]
    rcases le_total minTime (cur - step) with h1 | h1
    · rw [max_eq_left h1]
      congr 1
      push_cast
      ring
    · rw [max_eq_right h1]
      have hk : (0 : ℚ) ≤ (k : ℚ) * step := mul_nonneg (Nat.cast_nonneg k) hstep
      rw [max_eq_right (by linarith), max_eq_right (by push_cast; nlinarith)]

/-- Claim C5: in acceleration mode, after `k` calls to `accelerate` the
current limit equals `max (initial - k * step) minTime`; in particular it
never drops below the configured minimum, and in every other timer mode
`accelerate` leaves the limit unchanged. -/
theorem claim_accel_limit (step minTime initial cur : ℚ) (mode : TimerMode) (k : Nat)
    (hstep : 0 ≤ step) (hmin : minTime ≤ initial) :
    accelerateN TimerMode.acceleration step minTime k initial
        = max (initial - (k : ℚ) * step) minTime
    ∧ minTime ≤ accelerateN TimerMode.acceleration step minTime k initial
    ∧ (mode ≠ TimerMode.acceleration → accelerateN mode step minTime k cur = cur) := by
  refine ⟨accelerateN_accel step minTime hstep k initial hmin, ?_, ?_⟩
  · rw [accelerateN_accel step minTime hstep k initial hmin]
    exact le_max_right _ _
  · intro hmode
    exact accelerateN_other mode step minTime hmode k cur

/-- Witness for C5 at `step = 2`, `minTime = 1`, `initial = 10`, `k = 3`. -/
theorem claim_accel_limit_witness :
    ((0 : ℚ) ≤ 2 ∧ (1 : ℚ) ≤ 10)
    ∧ (accelerateN TimerMode.acceleration 2 1 3 10
          = max (10 - ((3 : Nat) : ℚ) * 2) 1
        ∧ (1 : ℚ) ≤ accelerateN TimerMode.acceleration 2 1 3 10
        ∧ (TimerMode.global ≠ TimerMode.acceleration →
            accelerateN TimerMode.global 2 1 3 7 = 7)) :=
  ⟨⟨by decide, by decide⟩,
    claim_accel_limit 2 1 10 7 TimerMode.global 3 (by decide) (by decide)⟩

theorem tick_stopped (mode : TimerMode) (st : TimerState) (h : st.isRunning = false) :
    tick mode st = st := by
  rw [tick, if_pos (Or.inl h)]

theorem tickN_stopped (mode : TimerMode) (st : TimerState) (h : st.isRunning = false) :
    ∀ n : Nat, tickN mode n st = st := by
  intro n
  induction n with
  | zero => rfl
  | succ n ih => rw [tickN, tick_stopped mode st h, ih]

/-- Claim C7: while running in a timed mode, each tick decreases `timeLeft` by
the fixed 0.1-second step; once the remaining time is exhausted the tick
clamps the clock to zero, stops the countdown and invokes the time-up
callback, after which any number of further ticks changes nothing (so the
callback fires exactly once for that expiry); a non-negative clock never
becomes negative. -/
theorem claim_timer_tick (mode : TimerMode) (st : TimerState) (n : Nat)
    (hrun : st.isRunning = true) (hmode : mode ≠ TimerMode.none) :
    (1/10 < st.timeLeft → tick mode st = { st with timeLeft := st.timeLeft - 1/10 })
    ∧ (st.timeLeft ≤ 1/10 →
        tick mode st
            = { timeLeft := 0, isRunning := false, timeUpCount := st.timeUpCount + 1 }
          ∧ tickN mode n (tick mode st) = tick mode st)
    ∧ (0 ≤ st.timeLeft → 0 ≤ (tick mode st).timeLeft) := by
  have hcond : ¬ (st.isRunning = false ∨ mode = TimerMode.none) := by
    rintro (h | h)
    · rw [hrun] at h; exact Bool.noConfusion h
    · exact hmode h
  refine ⟨?_, ?_, ?_⟩
  · intro hgt
    rw [tick, if_neg hcond, if_neg (not_le.mpr hgt)]
  · intro hle
    have hexp : tick mode st
        = { timeLeft := 0, isRunning := false, timeUpCount := st.timeUpCount + 1 } := by
      rw [tick, if_neg hcond, if_pos hle]
    refine ⟨hexp, ?_⟩
    rw [hexp]
    exact tickN_stopped mode _ rfl n
  · intro hnn
    rw [tick, if_neg hcond]
    rcases le_or_lt st.timeLeft (1/10) with hle | hgt
    · rw [if_pos hle]
    · rw [if_neg (not_le.mpr hgt)]
      have : (0 : ℚ) ≤ st.timeLeft - 1/10 := by linarith
      exact this

/-- Witness for C7 at a running global-mode timer with 1 second left. -/
theorem claim_timer_tick_witness :
    (TimerState.mk 1 true 0).isRunning = true
    ∧ TimerMode.global ≠ TimerMode.none
    ∧ ((1/10 < (TimerState.mk 1 true 0).timeLeft →
          tick TimerMode.global (TimerState.mk 1 true 0)
            = { TimerState.mk 1 true 0 with timeLeft := (TimerState.mk 1 true 0).timeLeft - 1/10 })
        ∧ ((TimerState.mk 1 true 0).timeLeft ≤ 1/10 →
            tick TimerMode.global (TimerState.mk 1 true 0)
                = { timeLeft := 0, isRunning := false,
                    timeUpCount := (TimerState.mk 1 true 0).timeUpCount + 1 }
              ∧ tickN TimerMode.global 5 (tick TimerMode.global (TimerState.mk 1 true 0))
                  = tick TimerMode.global (TimerState.mk 1 true 0))
        ∧ (0 ≤ (TimerState.mk 1 true 0).timeLeft →
            0 ≤ (tick TimerMode.global (TimerState.mk 1 true 0)).timeLeft)) :=
  ⟨rfl, by decide, claim_timer_tick TimerMode.global (TimerState.mk 1 true 0) 5 rfl (by decide)⟩

/-! ### Word Pool Resolver -/

theorem find?_cons_neg {α : Type} (p : α → Bool) (a : α) (l : List α) (h : p a = false) :
    List.find? p (a :: l) = List.find? p l := by
  simp [List.find?, h]

theorem dedup_key_not_seen : ∀ (ws : List Word) (seen : List String) (w : Word),
    w ∈ dedupByContent ws seen → contentKey w ∉ seen := by
  intro ws
  induction ws with
  | nil => intro seen w h; simp [dedupByContent] at h
  | cons x rest ih =>
    intro seen w h
    rw [dedupByContent] at h
    by_cases hx : contentKey x ∈ seen
    · rw [if_pos hx] at h
      exact ih seen w h
    · rw [if_neg hx] at h
      rcases List.mem_cons.mp h with rfl | h2
      · exact hx
      · intro hc
        exact ih _ w h2 (List.mem_cons_of_mem _ hc)

theorem dedup_keys_nodup : ∀ (ws : List Word) (seen : List String),
    ((dedupByContent ws seen).map contentKey).Nodup := by
  intro ws
  induction ws with
  | nil => intro seen; simp [dedupByContent]
  | cons x rest ih =>
    intro seen
    rw [dedupByContent]
    by_cases hx : contentKey x ∈ seen
    · rw [if_pos hx]; exact ih seen
    · rw [if_neg hx]
      simp only [List.map_cons, List.nodup_cons]
      refine ⟨?_, ih _⟩
      intro hmem
      rcases List.mem_map.mp hmem with ⟨y, hy, hkey⟩
      exact dedup_key_not_seen rest _ y hy (hkey ▸ List.mem_cons_self _ _)

theorem dedup_first_wins : ∀ (ws : List Word) (seen : List String) (w : Word),
    w ∈ dedupByContent ws seen →
    ws.find? (fun y => contentKey y == contentKey w) = Option.some w := by
  intro ws
  induction ws with
  | nil => intro seen w h; simp [dedupByContent] at h
  | cons x rest ih =>
    intro seen w h
    rw [dedupByContent] at h
    by_cases hx : contentKey x ∈ seen
    · rw [if_pos hx] at h
      have hne : contentKey w ∉ seen := dedup_key_not_seen rest seen w h
      have hxw : (contentKey x == contentKey w) = false := by
        rw [beq_eq_false_iff_ne]
        intro hb
        exact hne (hb ▸ hx)
      rw [find?_cons_neg (fun y => contentKey y == contentKey w) x rest hxw]
      exact ih seen w h
    · rw [if_neg hx] at h
      rcases List.mem_cons.mp h with rfl | h2
      · exact List.find?_cons_of_pos _ (by simp)
      · have hne : contentKey w ∉ contentKey x :: seen := dedup_key_not_seen rest _ w h2
        have hxw : (contentKey x == contentKey w) = false := by
          rw [beq_eq_false_iff_ne]
          intro hb
          exact hne (by rw [← hb]; exact List.mem_cons_self _ _)
        rw [find?_cons_neg (fun y => contentKey y == contentKey w) x rest hxw]
        exact ih _ w h2

theorem dedup_covers : ∀ (ws : List Word) (seen : List String) (w : Word), w ∈ ws →
    contentKey w ∈ seen ∨ ∃ y ∈ dedupByContent ws seen, contentKey y = contentKey w := by
  intro ws
  induction ws with
  | nil => intro seen w h; cases h
  | cons x rest ih =>
    intro seen w h
    rw [dedupByContent]
    rcases List.mem_cons.mp h with rfl | h2
    · by_cases hx : contentKey w ∈ seen
      · exact Or.inl hx
      · right
        rw [if_neg hx]
        exact ⟨w, List.mem_cons_self _ _, rfl⟩
    · by_cases hx : contentKey x ∈ seen
      · rw [if_pos hx]
        exact ih seen w h2
      · rw [if_neg hx]
        rcases ih (contentKey x :: seen) w h2 with hs | ⟨y, hy, hk⟩
        · rcases List.mem_cons.mp hs with heq | hs2
          · exact Or.inr ⟨x, List.mem_cons_self _ _, heq.symm⟩
          · exact Or.inl hs2
        · exact Or.inr ⟨y, List.mem_cons_of_mem _ hy, hk⟩

/-- Claim C6: the deduplicated word pool contains no two entries with equal
content keys; each kept entry is the first word in load order bearing its
content key, and every loaded word's content key is represented by some kept
entry. -/
theorem claim_dedup_content (ws : List Word) :
    ((dedupWords ws).map contentKey).Nodup
    ∧ (∀ w ∈ dedupWords ws,
        ws.find? (fun y => contentKey y == contentKey w) = Option.some w)
    ∧ (∀ w ∈ ws, ∃ y ∈ dedupWords ws, contentKey y = contentKey w) := by
  refine ⟨dedup_keys_nodup ws [], ?_, ?_⟩
  · intro w hw
    exact dedup_first_wins ws [] w hw
  · intro w hw
    rcases dedup_covers ws [] w hw with hs | h
    · cases hs
    · exact h

/-- Witness for C6 on a pool whose third word repeats the first word's
content key up to trimming and lower-casing. -/
theorem claim_dedup_content_witness :
    ((dedupWords [Word.mk "w1" ["Aa", "Bb"], Word.mk "w2" ["Cc", "Dd"],
        Word.mk "w3" [" aa", "bB "]]).map contentKey).Nodup
    ∧ (∀ w ∈ dedupWords [Word.mk "w1" ["Aa", "Bb"], Word.mk "w2" ["Cc", "Dd"],
        Word.mk "w3" [" aa", "bB "]],
        [Word.mk "w1" ["Aa", "Bb"], Word.mk "w2" ["Cc", "Dd"],
          Word.mk "w3" [" aa", "bB "]].find?
            (fun y => contentKey y == contentKey w) = Option.some w)
    ∧ (∀ w ∈ [Word.mk "w1" ["Aa", "Bb"], Word.mk "w2" ["Cc", "Dd"],
        Word.mk "w3" [" aa", "bB "]],
        ∃ y ∈ dedupWords [Word.mk "w1" ["Aa", "Bb"], Word.mk "w2" ["Cc", "Dd"],
          Word.mk "w3" [" aa", "bB "]], contentKey y = contentKey w) :=
  claim_dedup_content [Word.mk "w1" ["Aa", "Bb"], Word.mk "w2" ["Cc", "Dd"],
    Word.mk "w3" [" aa", "bB "]]

theorem fillLoop_length_ge (chunks : Nat → List Word) (target : Nat)
    (hc : ∀ i, chunks i ≠ []) :
    ∀ (fuel : Nat) (acc : List Word), target ≤ acc.length + fuel →
      target ≤ (fillLoop chunks target fuel acc).length := by
  intro fuel
  induction fuel with
  | zero =>
    intro acc h
    rw [fillLoop]
    simpa using h
  | succ fuel ih =>
    intro acc h
    rw [fillLoop]
    by_cases hlt : acc.length < target
    · rw [if_pos hlt]
      apply ih
      have h1 : 1 ≤ (chunks fuel).length := List.length_pos.mpr (hc fuel)
      rw [List.length_append]
      omega
    · rw [if_neg hlt]
      omega

theorem fillLoop_mem (chunks : Nat → List Word) (target : Nat) :
    ∀ (fuel : Nat) (acc : List Word) (w : Word), w ∈ fillLoop chunks target fuel acc →
      w ∈ acc ∨ ∃ i, w ∈ chunks i := by
  intro fuel
  induction fuel with
  | zero =>
    intro acc w h
    rw [fillLoop] at h
    exact Or.inl h
  | succ fuel ih =>
    intro acc w h
    rw [fillLoop] at h
    by_cases hlt : acc.length < target
    · rw [if_pos hlt] at h
      rcases ih _ w h with hmem | hex
      · rcases List.mem_append.mp hmem with h1 | h2
        · exact Or.inl h1
        · exact Or.inr ⟨fuel, h2⟩
      · exact Or.inr hex
    · rw [if_neg hlt] at h
      exact Or.inl h

/-- Claim C2: for a positive question count and a non-empty subset, the
resolved question sequence has exactly the configured length, and every
element of it is a member of the subset (each fill iteration appends a
permutation of the subset, so repetition covers counts beyond the subset
size). -/
theorem claim_sequence_length (chunks : Nat → List Word) (subset : List Word) (target : Nat)
    (htar : 0 < target) (hne : subset ≠ [])
    (hperm : ∀ i, (chunks i).Perm subset) :
    (buildSequence chunks subset target).length = target
    ∧ ∀ w ∈ buildSequence chunks subset target, w ∈ subset := by
  have hchunk : ∀ i, chunks i ≠ [] := by
    intro i hnil
    apply hne
    have hlen := (hperm i).length_eq
    rw [hnil] at hlen
    exact List.eq_nil_of_length_eq_zero hlen.symm
  have hfalse : ¬ (subset.isEmpty = true) := by
    cases subset with
    | nil => exact absurd rfl hne
    | cons a l => simp
  have hlong : target ≤ (fillLoop chunks target target []).length :=
    fillLoop_length_ge chunks target hchunk target [] (by simp)
  constructor
  · rw [buildSequence, if_neg hfalse, List.length_take]
    omega
  · intro w hw
    rw [buildSequence, if_neg hfalse] at hw
    have hw2 := List.take_subset _ _ hw
    rcases fillLoop_mem chunks target target [] w hw2 with h0 | ⟨i, hi⟩
    · cases h0
    · exact (hperm i).mem_iff.mp hi

/-- Witness for C2 with a two-word subset, identity shuffles and five
questions. -/
theorem claim_sequence_length_witness :
    (0 < 5 ∧ [Word.mk "w1" ["a", "b"], Word.mk "w2" ["c", "d"]] ≠ []
      ∧ ∀ i : Nat, ((fun _ : Nat => [Word.mk "w1" ["a", "b"], Word.mk "w2" ["c", "d"]]) i).Perm
          [Word.mk "w1" ["a", "b"], Word.mk "w2" ["c", "d"]])
    ∧ ((buildSequence (fun _ => [Word.mk "w1" ["a", "b"], Word.mk "w2" ["c", "d"]])
          [Word.mk "w1" ["a", "b"], Word.mk "w2" ["c", "d"]] 5).length = 5
        ∧ ∀ w ∈ buildSequence (fun _ => [Word.mk "w1" ["a", "b"], Word.mk "w2" ["c", "d"]])
            [Word.mk "w1" ["a", "b"], Word.mk "w2" ["c", "d"]] 5,
          w ∈ [Word.mk "w1" ["a", "b"], Word.mk "w2" ["c", "d"]]) :=
  ⟨⟨by decide, by simp, fun _ => List.Perm.refl _⟩,
    claim_sequence_length _ _ 5 (by decide) (by simp) (fun _ => List.Perm.refl _)⟩

/-! ### Session Log Recorder: replay reconstruction -/

/-- Claim C8: replay reconstruction yields exactly one word per logged
question, in log order: the sequence has the log's length, the word at each
position carries the logged word id, it is a pool word when the id resolves,
and it is the visible placeholder when the id no longer resolves — the
replay is never aborted. -/
theorem claim_replay_reconstruction (pool : List Word) (qs : List QuestionLog) :
    (reconstructSequence pool qs).length = qs.length
    ∧ (∀ (i : Nat) (q : QuestionLog), qs[i]? = Option.some q →
        ∃ r : Word, (reconstructSequence pool qs)[i]? = Option.some r
          ∧ r.id = q.wordId ∧ (r ∈ pool ∨ r = placeholderWord q.wordId))
    ∧ (∀ (i : Nat) (q : QuestionLog), qs[i]? = Option.some q →
        (∀ w ∈ pool, w.id ≠ q.wordId) →
        (reconstructSequence pool qs)[i]? = Option.some (placeholderWord q.wordId)) := by
  refine ⟨by simp [reconstructSequence], ?_, ?_⟩
  · intro i q hq
    rw [reconstructSequence, List.getElem?_map, hq, Option.map_some']
    cases hfind : pool.find? (fun w => w.id == q.wordId) with
    | none =>
      exact ⟨placeholderWord q.wordId, rfl, rfl, Or.inr rfl⟩
    | some w =>
      refine ⟨w, rfl, ?_, Or.inl (List.mem_of_find?_eq_some hfind)⟩
      have hp := List.find?_some hfind
      exact beq_iff_eq.mp hp
  · intro i q hq hnone
    have hfind : pool.find? (fun w => w.id == q.wordId) = Option.none := by
      rw [List.find?_eq_none]
      intro x hx hb
      exact hnone x hx (beq_iff_eq.mp hb)
    rw [reconstructSequence, List.getElem?_map, hq, Option.map_some', hfind]

/-- Witness for C8 on a one-word pool and a two-question log whose second
word id no longer resolves. -/
theorem claim_replay_reconstruction_witness :
    (reconstructSequence [Word.mk "w1" ["a", "b"]]
        [QuestionLog.mk "w1" [] "w1" Option.none true 0,
         QuestionLog.mk "zz" [] "zz" Option.none true 0]).length
      = [QuestionLog.mk "w1" [] "w1" Option.none true 0,
         QuestionLog.mk "zz" [] "zz" Option.none true 0].length
    ∧ (∀ (i : Nat) (q : QuestionLog),
        [QuestionLog.mk "w1" [] "w1" Option.none true 0,
         QuestionLog.mk "zz" [] "zz" Option.none true 0][i]? = Option.some q →
        ∃ r : Word, (reconstructSequence [Word.mk "w1" ["a", "b"]]
            [QuestionLog.mk "w1" [] "w1" Option.none true 0,
             QuestionLog.mk "zz" [] "zz" Option.none true 0])[i]? = Option.some r
          ∧ r.id = q.wordId ∧ (r ∈ [Word.mk "w1" ["a", "b"]] ∨ r = placeholderWord q.wordId))
    ∧ (∀ (i : Nat) (q : QuestionLog),
        [QuestionLog.mk "w1" [] "w1" Option.none true 0,
         QuestionLog.mk "zz" [] "zz" Option.none true 0][i]? = Option.some q →
        (∀ w ∈ [Word.mk "w1" ["a", "b"]], w.id ≠ q.wordId) →
        (reconstructSequence [Word.mk "w1" ["a", "b"]]
            [QuestionLog.mk "w1" [] "w1" Option.none true 0,
             QuestionLog.mk "zz" [] "zz" Option.none true 0])[i]?
          = Option.some (placeholderWord q.wordId)) :=
  claim_replay_reconstruction [Word.mk "w1" ["a", "b"]]
    [QuestionLog.mk "w1" [] "w1" Option.none true 0,
     QuestionLog.mk "zz" [] "zz" Option.none true 0]

/-! ### Choice Round Engine: scoring and tainting -/

theorem correct_click_fields (st : ChoiceState) (optionId sel : String) (question : Word)
    (hsel : st.selectedQuestionId = Option.some sel)
    (hnm : optionId ∉ st.correctMatchIds)
    (hq : st.currentBatch.find? (fun q => q.id == sel) = Option.some question)
    (hco : question.id = optionId) :
    (handleOptionClick st optionId).score
        = (if sel ∈ st.taintedQuestionIds then st.score else st.score + 1)
    ∧ (handleOptionClick st optionId).mistakes = st.mistakes
    ∧ (handleOptionClick st optionId).taintedQuestionIds = st.taintedQuestionIds := by
  have hbeq : (question.id == optionId) = true := beq_iff_eq.mpr hco
  simp only [handleOptionClick, hsel]
  rw [if_neg hnm]
  simp only [hq, hbeq, if_true]
  split <;> simp

theorem wrong_click_fields (st : ChoiceState) (optionId sel : String) (question : Word)
    (hsel : st.selectedQuestionId = Option.some sel)
    (hnm : optionId ∉ st.correctMatchIds)
    (hq : st.currentBatch.find? (fun q => q.id == sel) = Option.some question)
    (hco : question.id ≠ optionId) :
    (handleOptionClick st optionId).score = st.score
    ∧ (handleOptionClick st optionId).mistakes = st.mistakes + 1
    ∧ (handleOptionClick st optionId).taintedQuestionIds
        = insert sel st.taintedQuestionIds := by
  have hbeq : (question.id == optionId) = false := beq_eq_false_iff_ne.mpr hco
  simp only [handleOptionClick, hsel]
  rw [if_neg hnm]
  simp only [hq, hbeq, Bool.false_eq_true, if_false]
  simp

theorem tainted_step (st : ChoiceState) (c : String) :
    (handleOptionClick st c).taintedQuestionIds =
      (if isWrongClick st c then
        match st.selectedQuestionId with
        | Option.some sel => insert sel st.taintedQuestionIds
        | Option.none => st.taintedQuestionIds
      else st.taintedQuestionIds) := by
  obtain ⟨batch, selq, res, cmi, wri, tnt, sc, mi, ap⟩ := st
  cases selq with
  | none => simp [handleOptionClick, isWrongClick]
  | some sel =>
    by_cases hm : c ∈ cmi
    · simp [handleOptionClick, isWrongClick, hm]
    · cases hfind : List.find? (fun q => q.id == sel) batch with
      | none => simp [handleOptionClick, isWrongClick, hm, hfind]
      | some question =>
        cases hbeq : question.id == c with
        | true =>
          simp only [handleOptionClick, isWrongClick, hm, hfind, hbeq, if_neg, if_false,
            Bool.not_true, Bool.false_eq_true, if_true]
          split <;> rfl
        | false =>
          simp [handleOptionClick, isWrongClick, hm, hfind, hbeq]

theorem runClicks_tainted : ∀ (clicks : List String) (st : ChoiceState),
    (runClicks st clicks).taintedQuestionIds
      = st.taintedQuestionIds ∪ wrongAnswered st clicks := by
  intro clicks
  induction clicks with
  | nil => intro st; simp [runClicks, wrongAnswered]
  | cons c rest ih =>
    intro st
    rw [runClicks, wrongAnswered, ih (handleOptionClick st c), tainted_step]
    by_cases hw : isWrongClick st c = true
    · rw [if_pos hw, if_pos hw]
      cases hsel : st.selectedQuestionId with
      | none =>
        rw [isWrongClick] at hw
        rw [hsel] at hw
        cases hw
      | some sel =>
        ext x
        simp only [Finset.mem_insert, Finset.mem_union, Finset.mem_singleton]
        tauto
    · rw [if_neg hw, if_neg hw, Finset.empty_union]

/-- Claim C1: on a correct resolution the score rises by exactly 1 iff the
selected question is untainted (and stays unchanged when tainted, with no
mistake counted); on a wrong option click the mistake count rises by 1 and
the selected question becomes tainted (with the score unchanged); and over
any click sequence from a fresh batch state the tainted set is exactly the
set of questions answered incorrectly at least once in this batch. -/
theorem claim_choice_scoring (st : ChoiceState) (optionId sel : String) (question : Word)
    (hsel : st.selectedQuestionId = Option.some sel)
    (hnm : optionId ∉ st.correctMatchIds)
    (hq : st.currentBatch.find? (fun q => q.id == sel) = Option.some question) :
    (question.id = optionId →
        ((handleOptionClick st optionId).score = st.score + 1 ↔ sel ∉ st.taintedQuestionIds)
        ∧ (sel ∈ st.taintedQuestionIds → (handleOptionClick st optionId).score = st.score)
        ∧ (handleOptionClick st optionId).mistakes = st.mistakes)
    ∧ (question.id ≠ optionId →
        (handleOptionClick st optionId).mistakes = st.mistakes + 1
        ∧ (handleOptionClick st optionId).taintedQuestionIds
            = insert sel st.taintedQuestionIds
        ∧ (handleOptionClick st optionId).score = st.score)
    ∧ (∀ (st0 : ChoiceState) (clicks : List String),
        st0.taintedQuestionIds = ∅ →
        (runClicks st0 clicks).taintedQuestionIds = wrongAnswered st0 clicks) := by
  refine ⟨?_, ?_, ?_⟩
  · intro hco
    obtain ⟨hs, hm, _⟩ := correct_click_fields st optionId sel question hsel hnm hq hco
    refine ⟨⟨?_, ?_⟩, ?_, hm⟩
    · intro h1 hmem
      rw [hs, if_pos hmem] at h1
      omega
    · intro hnmem
      rw [hs, if_neg hnmem]
    · intro hmem
      rw [hs, if_pos hmem]
  · intro hco
    obtain ⟨hs, hm, ht⟩ := wrong_click_fields st optionId sel question hsel hnm hq hco
    exact ⟨hm, ht, hs⟩
  · intro st0 clicks h0
    rw [runClicks_tainted clicks st0, h0, Finset.empty_union]

/-- Witness for C1 on a fresh one-question batch with a wrong option id. -/
theorem claim_choice_scoring_witness :
    (sampleChoiceState.selectedQuestionId = Option.some "w1"
      ∧ "w2" ∉ sampleChoiceState.correctMatchIds
      ∧ sampleChoiceState.currentBatch.find? (fun q => q.id == "w1")
          = Option.some (Word.mk "w1" ["a", "b"]))
    ∧ (((Word.mk "w1" ["a", "b"]).id = "w2" →
          ((handleOptionClick sampleChoiceState "w2").score = sampleChoiceState.score + 1
              ↔ "w1" ∉ sampleChoiceState.taintedQuestionIds)
          ∧ ("w1" ∈ sampleChoiceState.taintedQuestionIds →
              (handleOptionClick sampleChoiceState "w2").score = sampleChoiceState.score)
          ∧ (handleOptionClick sampleChoiceState "w2").mistakes = sampleChoiceState.mistakes)
        ∧ ((Word.mk "w1" ["a", "b"]).id ≠ "w2" →
            (handleOptionClick sampleChoiceState "w2").mistakes = sampleChoiceState.mistakes + 1
            ∧ (handleOptionClick sampleChoiceState "w2").taintedQuestionIds
                = insert "w1" sampleChoiceState.taintedQuestionIds
            ∧ (handleOptionClick sampleChoiceState "w2").score = sampleChoiceState.score)
        ∧ (∀ (st0 : ChoiceState) (clicks : List String),
            st0.taintedQuestionIds = ∅ →
            (runClicks st0 clicks).taintedQuestionIds = wrongAnswered st0 clicks)) :=
  ⟨⟨rfl, by simp [sampleChoiceState, initBatchState], rfl⟩,
    claim_choice_scoring sampleChoiceState "w2" "w1" (Word.mk "w1" ["a", "b"])
      rfl (by simp [sampleChoiceState, initBatchState]) rfl⟩

/-! ### Session Log Recorder: persistence -/

theorem finishGame_of_saved (fs : Option Nat) (st : MatchFinishState) (h : st.hasSaved = true) :
    finishGame fs st = st := by
  rw [finishGame, if_pos (Or.inr h)]

theorem finishGameN_saved (fs : Option Nat) (st : MatchFinishState) (h : st.hasSaved = true) :
    ∀ n : Nat, finishGameN fs n st = st := by
  intro n
  induction n with
  | zero => rfl
  | succ n ih => rw [finishGameN, finishGame_of_saved fs st h, ih]

/-- Claim C3: starting from an unsaved, unfinished matching round with a
session id not yet in the stored history, the first `finishGame` call
persists the frozen record once, and any number of further persist attempts
for that id are a no-op: the stored history holds exactly one record with
that id, and equals the old history with the single new record appended. -/
theorem claim_persist_idempotent (fs : Option Nat) (st : MatchFinishState) (n : Nat)
    (hf : st.isFinished = false) (hs : st.hasSaved = false)
    (hfresh : st.history.countP (fun s => s.id == st.sessionLog.id) = 0) :
    finishGameN fs (n + 1) st = finishGame fs st
    ∧ (finishGame fs st).history.countP (fun s => s.id == st.sessionLog.id) = 1
    ∧ (finishGame fs st).history = st.history ++ [(finishGame fs st).sessionLog] := by
  have hcond : ¬ (st.isFinished = true ∨ st.hasSaved = true) := by
    rintro (h | h)
    · rw [hf] at h; exact Bool.noConfusion h
    · rw [hs] at h; exact Bool.noConfusion h
  refine ⟨?_, ?_, ?_⟩
  · rw [finishGameN]
    apply finishGameN_saved
    rw [finishGame, if_neg hcond]
  · rw [finishGame, if_neg hcond]
    simp [HistoryManager.saveSession, hfresh]
  · rw [finishGame, if_neg hcond]
    simp [HistoryManager.saveSession]

/-- Witness for C3 on an unsaved matching state with an empty history. -/
theorem claim_persist_idempotent_witness :
    ((MatchFinishState.mk false false sampleSessionLog 1 0 10 []).isFinished = false
      ∧ (MatchFinishState.mk false false sampleSessionLog 1 0 10 []).hasSaved = false
      ∧ (MatchFinishState.mk false false sampleSessionLog 1 0 10 []).history.countP
          (fun s => s.id == (MatchFinishState.mk false false sampleSessionLog 1 0 10
            []).sessionLog.id) = 0)
    ∧ (finishGameN (Option.some 1) (2 + 1) (MatchFinishState.mk false false sampleSessionLog 1 0 10 [])
          = finishGame (Option.some 1) (MatchFinishState.mk false false sampleSessionLog 1 0 10 [])
        ∧ (finishGame (Option.some 1)
            (MatchFinishState.mk false false sampleSessionLog 1 0 10 [])).history.countP
              (fun s => s.id == (MatchFinishState.mk false false sampleSessionLog 1 0 10
                []).sessionLog.id) = 1
        ∧ (finishGame (Option.some 1)
            (MatchFinishState.mk false false sampleSessionLog 1 0 10 [])).history
          = (MatchFinishState.mk false false sampleSessionLog 1 0 10 []).history
            ++ [(finishGame (Option.some 1)
                (MatchFinishState.mk false false sampleSessionLog 1 0 10 [])).sessionLog]) :=
  ⟨⟨rfl, rfl, rfl⟩,
    claim_persist_idempotent (Option.some 1)
      (MatchFinishState.mk false false sampleSessionLog 1 0 10 []) 2 rfl rfl rfl⟩

/-! ### History storage access -/

/-- Claim C10 (amended): `getAllSessions` never throws; it returns the empty
list when the storage key is absent or its value is not valid JSON, and
returns the parsed value unchecked otherwise — which is a well-formed list
exactly when the stored JSON is an array, in which case `saveSession`'s push
succeeds on it. -/
theorem claim_getAllSessions_total :
    HistoryManager.getAllSessions StoredState.absent = JsValue.arr []
    ∧ HistoryManager.getAllSessions StoredState.invalid = JsValue.arr []
    ∧ (∀ v : JsValue, HistoryManager.getAllSessions (StoredState.json v) = v)
    ∧ (∀ (xs : List SessionLog) (s : SessionLog),
        pushSession (HistoryManager.getAllSessions (StoredState.json (JsValue.arr xs))) s
          = Option.some (JsValue.arr (xs ++ [s]))) :=
  ⟨rfl, rfl, fun _ => rfl, fun _ _ => rfl⟩

/-- Counterexample to C10 as stated: a stored value that is valid JSON but
not an array is returned as-is by `getAllSessions` — not a list — and
`saveSession`'s push then fails on it. -/
theorem claim_getAllSessions_counterexample :
    (HistoryManager.getAllSessions (StoredState.json JsValue.nonArr)).isArr = false
    ∧ pushSession (HistoryManager.getAllSessions (StoredState.json JsValue.nonArr))
        sampleSessionLog = Option.none :=
  ⟨rfl, rfl⟩

/-! ### Matching Round Engine: synthetic ids and the stale-match guard -/

theorem digitChar_ne_underscore (n : Nat) (h : n < 10) : digitChar n ≠ '_' := by
  interval_cases n <;> decide

theorem underscore_not_mem_natDigits (n : Nat) : '_' ∉ natDigits n := by
  induction n using Nat.strong_induction_on with
  | _ n ih =>
    rw [natDigits.eq_def]
    split
    · next h =>
      intro hmem
      rw [List.mem_singleton] at hmem
      exact digitChar_ne_underscore n h hmem.symm
    · next h =>
      intro hmem
      rcases List.mem_append.mp hmem with h1 | h2
      · exact ih (n / 10) (Nat.div_lt_self (by omega) (by omega)) h1
      · rw [List.mem_singleton] at h2
        exact digitChar_ne_underscore (n % 10) (Nat.mod_lt _ (by omega)) h2.symm

theorem digitChar_toNat (d : Nat) (h : d < 10) : (digitChar d).toNat - 48 = d := by
  interval_cases d <;> decide

theorem digitsVal_natDigits (n : Nat) : digitsVal (natDigits n) = n := by
  induction n using Nat.strong_induction_on with
  | _ n ih =>
    rw [natDigits.eq_def]
    split
    · next h =>
      interval_cases n <;> decide
    · next h =>
      have h10 : n % 10 < 10 := Nat.mod_lt _ (by omega)
      have hd := digitChar_toNat (n % 10) h10
      have hih := ih (n / 10) (Nat.div_lt_self (by omega) (by omega))
      calc digitsVal (natDigits (n / 10) ++ [digitChar (n % 10)])
          = digitsVal (natDigits (n / 10)) * 10 + ((digitChar (n % 10)).toNat - 48) := by
            simp only [digitsVal, List.foldl_append]
            rfl
        _ = n := by
            rw [hih, hd]
            omega

theorem natDigits_inj {a b : Nat} (h : natDigits a = natDigits b) : a = b := by
  have hv := congrArg digitsVal h
  rwa [digitsVal_natDigits, digitsVal_natDigits] at hv

theorem prefix_underscore_eq : ∀ (x y r : List Char), '_' ∉ x → '_' ∉ y →
    (x ++ ['_']) <+: (y ++ '_' :: r) → x = y := by
  intro x
  induction x with
  | nil =>
    intro y r _ hy h
    cases y with
    | nil => rfl
    | cons d y' =>
      exfalso
      rw [List.nil_append, List.cons_append, List.cons_prefix_cons] at h
      exact hy (h.1 ▸ List.mem_cons_self _ _)
  | cons c x' ih =>
    intro y r hx hy h
    cases y with
    | nil =>
      exfalso
      rw [List.cons_append, List.nil_append, List.cons_prefix_cons] at h
      exact hx (h.1 ▸ List.mem_cons_self _ _)
    | cons d y' =>
      rw [List.cons_append, List.cons_append, List.cons_prefix_cons] at h
      have hx' : '_' ∉ x' := fun hm => hx (List.mem_cons_of_mem _ hm)
      have hy' : '_' ∉ y' := fun hm => hy (List.mem_cons_of_mem _ hm)
      rw [h.1, ih y' r hx' hy' h.2]

theorem suffix_underscore_iff (a b pre : List Char) (ha : '_' ∉ a) (hb : '_' ∉ b) :
    ('_' :: a) <:+ (pre ++ '_' :: b) ↔ a = b := by
  constructor
  · intro h
    have h' : (a.reverse ++ ['_']) <+: (b.reverse ++ '_' :: pre.reverse) := by
      have h2 : ('_' :: a).reverse <+: (pre ++ '_' :: b).reverse := by
        rw [List.reverse_prefix]
        exact h
      rw [List.reverse_cons, List.reverse_append, List.reverse_cons] at h2
      have hshape : (b.reverse ++ ['_']) ++ pre.reverse = b.reverse ++ '_' :: pre.reverse := by
        simp
      rw [hshape] at h2
      exact h2
    have := prefix_underscore_eq a.reverse b.reverse pre.reverse
      (by simpa using ha) (by simpa using hb) h'
    exact List.reverse_injective this
  · rintro rfl
    exact List.suffix_append pre _

theorem roundSuffixOk_mkLeftId (wordId : List Char) (i r rPrev : Nat) :
    roundSuffixOk (mkLeftId wordId i rPrev) r = true ↔ r = rPrev := by
  rw [roundSuffixOk, endsWith, decide_eq_true_iff]
  have hshape : mkLeftId wordId i rPrev
      = ('L' :: '_' :: wordId ++ '_' :: natDigits i) ++ '_' :: natDigits rPrev := by
    rw [mkLeftId]
    simp
  rw [hshape,
    suffix_underscore_iff (natDigits r) (natDigits rPrev) _
      (underscore_not_mem_natDigits r) (underscore_not_mem_natDigits rPrev)]
  constructor
  · exact natDigits_inj
  · rintro rfl; rfl

/-- Claim C4: the matching round-completion watcher fires only when the
matched-set size equals the batch size and — whenever the matched set is
non-empty and homogeneously stamped with some round's identity — that
identity is the current round's (so every matched id belongs to the current
round instance); a matched set stamped with a prior round's identity never
fires it; once it fires it takes the transition lock and cannot fire again
until the next round initialization; and it does fire when all those
conditions are met. -/
theorem claim_matching_completion (st : MatchRoundState) (rPrev : Nat)
    (hhom : ∀ mid ∈ st.matchesInRound, ∃ wid i, mid = mkLeftId wid i rPrev) :
    (watcherFires st = true → st.matchesInRound.length = st.batchLen)
    ∧ (watcherFires st = true → st.matchesInRound ≠ [] →
        rPrev = st.roundIndex
        ∧ ∀ mid ∈ st.matchesInRound, ∃ wid i, mid = mkLeftId wid i st.roundIndex)
    ∧ (st.matchesInRound ≠ [] → rPrev ≠ st.roundIndex → watcherFires st = false)
    ∧ (watcherFires st = true → watcherFires (watcherStep st) = false
        ∧ watcherStep (watcherStep st) = watcherStep st)
    ∧ (st.hasBatch = true → st.finished = false → st.transitioning = false →
        st.matchesInRound.length = st.batchLen → rPrev = st.roundIndex →
        watcherFires st = true) := by
  have hhead : ∀ (m : List Char) (ms : List (List Char)),
      st.matchesInRound = m :: ms →
      (watcherFires st = true →
        roundSuffixOk m st.roundIndex = true) := by
    intro m ms hm hf
    rw [watcherFires, hm] at hf
    simp only [List.head?, Bool.and_eq_true] at hf
    exact hf.1.2
  refine ⟨?_, ?_, ?_, ?_, ?_⟩
  · intro hf
    rw [watcherFires] at hf
    simp only [Bool.and_eq_true, decide_eq_true_eq] at hf
    exact hf.1.1.2
  · intro hf hne
    cases hm : st.matchesInRound with
    | nil => exact absurd hm hne
    | cons m ms =>
      have hsuf := hhead m ms hm hf
      obtain ⟨wid, i, hmid⟩ := hhom m (hm ▸ List.mem_cons_self _ _)
      rw [hmid, roundSuffixOk_mkLeftId] at hsuf
      refine ⟨hsuf.symm, ?_⟩
      intro mid hmem
      obtain ⟨wid2, i2, hmid2⟩ := hhom mid (hm ▸ hmem)
      exact ⟨wid2, i2, by rw [hmid2, hsuf]⟩
  · intro hne hr
    cases hm : st.matchesInRound with
    | nil => exact absurd hm hne
    | cons m ms =>
      by_contra hf
      rw [Bool.not_eq_false] at hf
      have hsuf := hhead m ms hm hf
      obtain ⟨wid, i, hmid⟩ := hhom m (hm ▸ List.mem_cons_self _ _)
      rw [hmid, roundSuffixOk_mkLeftId] at hsuf
      exact hr hsuf.symm
  · intro hf
    have hstep : watcherStep st = { st with transitioning := true } := by
      rw [watcherStep, if_pos hf]
    have hnofire : watcherFires (watcherStep st) = false := by
      rw [hstep, watcherFires]
      simp
    refine ⟨hnofire, ?_⟩
    rw [hstep] at hnofire
    rw [hstep, watcherStep, if_neg (by simp [hnofire])]
  · intro hb hfin htr hlen hr
    rw [watcherFires, hb, hfin, htr]
    simp only [Bool.not_false, Bool.true_and, Bool.and_true, Bool.and_eq_true,
      decide_eq_true_eq]
    refine ⟨hlen, ?_⟩
    cases hm : st.matchesInRound with
    | nil => simp [List.head?]
    | cons m ms =>
      simp only [List.head?]
      obtain ⟨wid, i, hmid⟩ := hhom m (hm ▸ List.mem_cons_self _ _)
      rw [hmid, roundSuffixOk_mkLeftId]
      exact hr.symm

/-- Witness for C4 on a completed one-pair round whose matched id is stamped
with the current round index 2. -/
theorem claim_matching_completion_witness :
    (∀ mid ∈ sampleMatchState.matchesInRound, ∃ wid i, mid = mkLeftId wid i 2)
    ∧ ((watcherFires sampleMatchState = true →
          sampleMatchState.matchesInRound.length = sampleMatchState.batchLen)
      ∧ (watcherFires sampleMatchState = true → sampleMatchState.matchesInRound ≠ [] →
          2 = sampleMatchState.roundIndex
          ∧ ∀ mid ∈ sampleMatchState.matchesInRound,
              ∃ wid i, mid = mkLeftId wid i sampleMatchState.roundIndex)
      ∧ (sampleMatchState.matchesInRound ≠ [] → 2 ≠ sampleMatchState.roundIndex →
          watcherFires sampleMatchState = false)
      ∧ (watcherFires sampleMatchState = true →
          watcherFires (watcherStep sampleMatchState) = false
          ∧ watcherStep (watcherStep sampleMatchState) = watcherStep sampleMatchState)
      ∧ (sampleMatchState.hasBatch = true → sampleMatchState.finished = false →
          sampleMatchState.transitioning = false →
          sampleMatchState.matchesInRound.length = sampleMatchState.batchLen →
          2 = sampleMatchState.roundIndex →
          watcherFires sampleMatchState = true)) :=
  ⟨fun mid h => ⟨['w', '1'], 0, List.mem_singleton.mp h⟩,
    claim_matching_completion sampleMatchState 2
      (fun mid h => ⟨['w', '1'], 0, List.mem_singleton.mp h⟩)⟩

/-! ### Choice option generation in the swapped direction -/

/-- Claim C9 fails on the code: with direction `'en-ru'`, `handleStartGame`
suffixes `"_dir"` onto every sequence word's id but leaves dictionary ids
unchanged, so the batch-exclusion filter in `ChoiceGame`'s option generation
matches nothing and the batch's own word is drawn as a distractor: here the
option list for the single-question batch `w1` contains the dictionary copy
of `w1` itself as a distractor (same value pair, different id), while in the
normal direction the same configuration correctly excludes it. -/
theorem claim_swapped_distractor_bug :
    generateOptions id id
        [swapDictWord (Word.mk "w1" ["a1", "b1"]), swapDictWord (Word.mk "w2" ["a2", "b2"])]
        [swapSeqWord (Word.mk "w1" ["a1", "b1"])] 2
      = [swapSeqWord (Word.mk "w1" ["a1", "b1"]), swapDictWord (Word.mk "w1" ["a1", "b1"])]
    ∧ (swapDictWord (Word.mk "w1" ["a1", "b1"])).val
        = (swapSeqWord (Word.mk "w1" ["a1", "b1"])).val
    ∧ (swapDictWord (Word.mk "w1" ["a1", "b1"])).id
        ≠ (swapSeqWord (Word.mk "w1" ["a1", "b1"])).id
    ∧ generateOptions id id
        [Word.mk "w1" ["a1", "b1"], Word.mk "w2" ["a2", "b2"]]
        [Word.mk "w1" ["a1", "b1"]] 2
      = [Word.mk "w1" ["a1", "b1"], Word.mk "w2" ["a2", "b2"]] :=
  ⟨rfl, rfl, by decide, rfl⟩
